import Mathlib

/-!
# Verification of the Lyngdorf TCP transport core

Shallow embedding of `src/transport.ts` and, where the repository carries a
second generation of the same class (the transport version appended to
`src/node-dns-sd.d.ts`, and the capability-aware `tools` module), that
version as well. Wire strings are modelled as `List Char`; JavaScript
numbers holding protocol levels are modelled as `ℚ` (levels are decimal
fractions in tenths, and no binary floating-point rounding is exercised at
that granularity). Names without a `V2` suffix embed `src/transport.ts`;
`V2` names embed the second-generation transport.

The pending-command queue of `sendCommand`/`processMessage` stores promise
callbacks; JavaScript compares functions by object identity, so function
references are embedded as the inductive `FnRef`, with the executor's
`resolve` (`FnRef.raw k`) and the wrapper closure pushed onto the queue
(`FnRef.wrapper k`) being distinct objects for the same call `k`.
-/

namespace Lyngdorf

/-! ## Definitions: framer (`handleData`) -/

/-- The protocol delimiter: a carriage-return byte (0x0D). -/
def CR : Char := '\r'

/-- JavaScript `String.prototype.split` with a one-character separator, on
the `List Char` view of the string: splitting at every occurrence of `sep`
yields `n + 1` segments for `n` occurrences, empty segments included, and
`[[]]` for the empty string. -/
def splitOnChar (sep : Char) : List Char → List (List Char)
  | [] => [[]]
  | c :: cs =>
    if c = sep then [] :: splitOnChar sep cs
    else
      match splitOnChar sep cs with
      | [] => [[c]]
      | s :: ss => (c :: s) :: ss

/-- Prepend `x` to the first segment of a split result (used to glue the
trailing in-progress segment of one chunk onto the first segment of the
next chunk). -/
def consHead (x : List Char) : List (List Char) → List (List Char)
  | [] => [x]
  | s :: ss => (x ++ s) :: ss

/-- The last segment of a split, with `[]` as the default — this is
`messages.pop() || ''` from `handleData`. -/
def lastSeg (l : List (List Char)) : List Char := l.getLast?.getD []

/-- `handleData` from `src/transport.ts` (`private handleData(data: string)`),
as a pure function of the `responseBuffer` field: append the chunk to the
buffer, split on the carriage-return delimiter, keep the trailing segment as
the new buffer (`this.responseBuffer = messages.pop() || ''`), and hand every
remaining segment of positive length to `processMessage`, in order.
Returns (segments passed to `processMessage`, new `responseBuffer`). -/
def handleData (buf data : List Char) : List (List Char) × List Char :=
  let messages := splitOnChar CR (buf ++ data)
  ((messages.dropLast).filter (fun m => decide (m.length > 0)), lastSeg messages)

/-- Feed a sequence of chunks to `handleData` one at a time, threading the
`responseBuffer` and concatenating the segments passed to `processMessage`. -/
def runChunks (buf : List Char) : List (List Char) → List (List Char) × List Char
  | [] => ([], buf)
  | d :: ds =>
    let r := handleData buf d
    let rest := runChunks r.2 ds
    (r.1 ++ rest.1, rest.2)

/-! ## Definitions: classifier and correlator state machine

`src/transport.ts` keeps `socket`, `reconnectTimer`, `commandQueue` and the
per-command timeout timers as mutable instance state; promises are settled
through the `resolve`/`reject` callbacks captured by closures. The embedding
makes that state explicit and logs promise settlements. -/

/-- A JavaScript function object reference, compared by identity (`===`).
For a `sendCommand` invocation `k`, `raw k` is the promise executor's
`resolve`, and `wrapper k` is the arrow function
`(response) => { clearTimeout(timeoutId); resolve(response); }` pushed onto
`commandQueue` — a different object from `raw k`. -/
inductive FnRef
  | raw (k : Nat)
  | wrapper (k : Nat)
deriving DecidableEq, Repr

/-- One element of `this.commandQueue`:
`{ cmd, resolve: wrapper k, reject: rejectWrapper k }`. The stored callbacks
are determined by the invocation index `k`. -/
structure PendingEntry where
  cmd : List Char
  k : Nat
deriving DecidableEq, Repr

/-- The function object stored in the `resolve` field of a queue entry. -/
def entryResolve (e : PendingEntry) : FnRef := FnRef.wrapper e.k

/-- How the promise of a `sendCommand` invocation settled. -/
inductive Outcome
  | fulfilled (msg : List Char)
  | timedOut
  | writeFailed
deriving DecidableEq, Repr

/-- The mutable state of a `LyngdorfTransport` instance, plus a log of
observable effects. `socket = none` is `this.socket === null`;
`socket = some d` is a socket object with `destroyed = d`. `closePending`
records that a socket carrying the `'close'` handler installed by
`connect()` has been destroyed and Node has not yet delivered its `'close'`
event (Node `net.Socket#destroy` always emits `'close'` afterwards).
`activeTimers` holds the invocation indices whose 5-second timeout is armed
and not yet cleared; `settled` logs promise settlements in order;
`statusLog` logs `this.emit('status', message)` calls in order; `nextId`
numbers `sendCommand` invocations. -/
structure TransportState where
  socket : Option Bool
  reconnectTimer : Bool
  closePending : Bool
  commandQueue : List PendingEntry
  activeTimers : List Nat
  settled : List (Nat × Outcome)
  statusLog : List (List Char)
  nextId : Nat
deriving DecidableEq, Repr

/-- Whether promise `k` has already settled (a promise settles only once;
later `resolve`/`reject` calls are no-ops). -/
def isSettled (st : TransportState) (k : Nat) : Bool :=
  st.settled.any (fun p => p.1 = k)

/-- Settle promise `k` with outcome `o` unless it already settled. -/
def settle (st : TransportState) (k : Nat) (o : Outcome) : TransportState :=
  if isSettled st k then st else { st with settled := st.settled ++ [(k, o)] }

/-- `clearTimeout(timeoutId)` for invocation `k`. -/
def clearTimeoutFor (st : TransportState) (k : Nat) : TransportState :=
  { st with activeTimers := st.activeTimers.erase k }

/-- Invoke the `resolve` wrapper of invocation `k`:
`(response) => { clearTimeout(timeoutId); resolve(response); }`. -/
def wrapperResolve (st : TransportState) (k : Nat) (msg : List Char) : TransportState :=
  settle (clearTimeoutFor st k) k (Outcome.fulfilled msg)

/-- Invoke the `reject` wrapper of invocation `k`:
`(error) => { clearTimeout(timeoutId); reject(error); }`. -/
def wrapperReject (st : TransportState) (k : Nat) (o : Outcome) : TransportState :=
  settle (clearTimeoutFor st k) k o

/-- JavaScript `String.prototype.startsWith` with a one-character argument. -/
def startsWithChar (c : Char) : List Char → Bool
  | [] => false
  | x :: _ => x = c

/-- `processMessage` from `src/transport.ts`: `#`-messages are echoes and
dropped; `!`-messages are emitted on the `status` event and, if the queue is
non-empty, resolve the shifted head entry; anything else is ignored. -/
def processMessage (st : TransportState) (message : List Char) : TransportState :=
  if startsWithChar '#' message then st
  else if startsWithChar '!' message then
    let st1 := { st with statusLog := st.statusLog ++ [message] }
    match st1.commandQueue with
    | [] => st1
    | pending :: rest =>
      wrapperResolve { st1 with commandQueue := rest } pending.k message
  else st

/-- The synchronous failure `sendCommand` can raise. -/
inductive SendError
  | notConnected
deriving DecidableEq, Repr

/-- `sendCommand` from `src/transport.ts`: throw `Not connected to device`
when `!this.socket || this.socket.destroyed`; otherwise arm the 5-second
timeout, push `{cmd, resolve: wrapper, reject: wrapper}` onto
`commandQueue`, and write `command + '\r'`. If the write's callback reports
an error, pop the most recent entry and reject it. `writeOk` is the outcome
the socket reports to the write callback; the returned `Nat` is the
invocation index identifying the promise handed back to the caller. -/
def sendCommand (st : TransportState) (command : List Char) (writeOk : Bool) :
    Except SendError Nat × TransportState :=
  if st.socket = none ∨ st.socket = some true then (Except.error SendError.notConnected, st)
  else
    let k := st.nextId
    let st1 := { st with
      nextId := k + 1,
      activeTimers := st.activeTimers ++ [k],
      commandQueue := st.commandQueue ++ [⟨command, k⟩] }
    if writeOk then (Except.ok k, st1)
    else
      match st1.commandQueue.getLast? with
      | some pending =>
        (Except.ok k,
          wrapperReject { st1 with commandQueue := st1.commandQueue.dropLast }
            pending.k Outcome.writeFailed)
      | none => (Except.ok k, st1)

/-- The `setTimeout` callback armed by `sendCommand` for invocation `k`
fires (only possible while `k ∈ activeTimers`):
`const idx = this.commandQueue.findIndex(c => c.resolve === resolve);`
`if (idx >= 0) this.commandQueue.splice(idx, 1);`
`reject(new Error('Command timeout'));`
The `resolve` captured here is the executor's own (`FnRef.raw k`), while
every queue entry stores a wrapper closure, so the identity comparison is
between `wrapper j` and `raw k`. The final `reject` is the executor's raw
reject. -/
def timeoutFires (st : TransportState) (k : Nat) : TransportState :=
  let idx := st.commandQueue.findIdx? (fun c => entryResolve c == FnRef.raw k)
  let st1 :=
    match idx with
    | some i => { st with commandQueue := st.commandQueue.eraseIdx i }
    | none => st
  settle { st1 with activeTimers := st1.activeTimers.erase k } k Outcome.timedOut

/-- `scheduleReconnect` from `src/transport.ts`: idempotent arming of the
single reconnect timer. -/
def scheduleReconnect (st : TransportState) : TransportState :=
  if st.reconnectTimer then st else { st with reconnectTimer := true }

/-- `disconnect` from `src/transport.ts`: clear a pending reconnect timer,
then `this.socket.destroy(); this.socket = null;` if a socket exists.
Destroying the socket makes Node deliver `'close'` to the handler installed
by `connect()` afterwards, recorded here as `closePending`. -/
def disconnect (st : TransportState) : TransportState :=
  let st1 := if st.reconnectTimer then { st with reconnectTimer := false } else st
  match st1.socket with
  | some _ => { st1 with socket := none, closePending := true }
  | none => st1

/-- Delivery of the `'close'` event to the handler installed in `connect()`:
`this.emit('disconnected'); this.scheduleReconnect();`. -/
def socketCloseEvent (st : TransportState) : TransportState :=
  if st.closePending then scheduleReconnect { st with closePending := false } else st

/-- A transport immediately after a successful `connect()`, no commands
pending. (In the second-generation transport the initialization command
`!VERB(1)` is written without enqueueing, so the queue is empty here.) -/
def connectedState : TransportState :=
  ⟨some false, false, false, [], [], [], [], 0⟩

/-- A transport whose socket is `null` (never connected, or explicitly
disconnected). -/
def unconnectedState : TransportState :=
  ⟨none, false, false, [], [], [], [], 0⟩

/-! ## Definitions: response decoders

The decoders use `String.prototype.match` with regexes of the single shape
`TAG\((C+)\)` for a literal `TAG(` and a character class `C`. Such a regex
matches at the first position where the literal `TAG(` occurs followed by a
non-empty run of class characters and then `')'`; because `')'` never
belongs to the class, greedy matching with backtracking succeeds exactly
when the character after the maximal class run is `')'`. -/

/-- Attempt the pattern `tag` + non-empty class run + `')'` at the head of
`s`, returning the captured run. -/
def tryCapture (tag : List Char) (p : Char → Bool) (s : List Char) : Option (List Char) :=
  if tag.isPrefixOf s then
    let t := s.drop tag.length
    let cap := t.takeWhile p
    if cap.isEmpty then none
    else
      match (t.dropWhile p).head? with
      | some c => if c = ')' then some cap else none
      | none => none
  else none

/-- Scan left to right for the first position where `tryCapture` succeeds —
the anchor-free search `String.prototype.match` performs. -/
def scanCapture (tag : List Char) (p : Char → Bool) : List Char → Option (List Char)
  | [] => none
  | c :: cs =>
    match tryCapture tag p (c :: cs) with
    | some cap => some cap
    | none => scanCapture tag p cs

/-- The character class `[-\d.]` of the volume regex. -/
def isVolChar (c : Char) : Bool := c = '-' || c.isDigit || c = '.'

/-- Digit characters `'0'..'9'`, value of one digit. -/
def digitVal (c : Char) : Nat := c.toNat - 48

/-- Value of a run of decimal digit characters, most significant first —
`parseInt(s, 10)` on an all-digit string. -/
def digitsToNat (ds : List Char) : Nat :=
  ds.foldl (fun acc c => 10 * acc + digitVal c) 0

/-- The decimal digit character for `d < 10`. -/
def digitChar (d : Nat) : Char := Char.ofNat (48 + d)

/-- Fuel-bounded digit rendering; the fuel only serves structural
termination and is always sufficient at the call site in `natToChars`. -/
def natToCharsAux : Nat → Nat → List Char
  | 0, _ => []
  | fuel + 1, n =>
    if n < 10 then [digitChar n]
    else natToCharsAux fuel (n / 10) ++ [digitChar (n % 10)]

/-- Decimal rendering of a natural number, as JavaScript number-to-string
coercion produces for non-negative integers. -/
def natToChars (n : Nat) : List Char := natToCharsAux (n + 1) n

/-- Decimal rendering of an integer — JavaScript `${n}` for an integral
number value. -/
def intToChars (d : Int) : List Char :=
  if d < 0 then '-' :: natToChars d.natAbs else natToChars d.natAbs

/-- A JavaScript number that is either `NaN` or an exact decimal value. -/
inductive JsNum
  | nan
  | num (q : ℚ)
deriving DecidableEq, Repr

/-- Negation of a JavaScript number (`NaN` stays `NaN`). -/
def jsNeg : JsNum → JsNum
  | JsNum.nan => JsNum.nan
  | JsNum.num q => JsNum.num (-q)

/-- The unsigned part of `parseFloat`: longest `digits [. digits]` prefix,
`NaN` when there is no digit at all. -/
def parseFloatMag (t : List Char) : JsNum :=
  let intDigits := t.takeWhile Char.isDigit
  let rest := t.dropWhile Char.isDigit
  if startsWithChar '.' rest then
    let fracDigits := (rest.drop 1).takeWhile Char.isDigit
    if intDigits.isEmpty && fracDigits.isEmpty then JsNum.nan
    else
      JsNum.num
        ((digitsToNat intDigits : ℚ) + (digitsToNat fracDigits : ℚ) / (10 : ℚ) ^ fracDigits.length)
  else
    if intDigits.isEmpty then JsNum.nan
    else JsNum.num (digitsToNat intDigits : ℚ)

/-- `parseFloat` on the capture of a `[-\d.]+` class: optional sign, then
the longest `digits [. digits]` prefix, `NaN` when there is no digit (the
exponent forms of full `parseFloat` cannot occur because `e` is outside
the capture class). -/
def parseFloatQ (s : List Char) : JsNum :=
  if startsWithChar '-' s then jsNeg (parseFloatMag (s.drop 1))
  else if startsWithChar '+' s then parseFloatMag (s.drop 1)
  else parseFloatMag s

/-- `parseVolumeResponse` from `src/transport.ts`:
`response.match(/!VOL\(([-\d.]+)\)/)`, then `parseFloat(match[1])`, `null`
when there is no match. -/
def parseVolumeResponse (response : List Char) : Option JsNum :=
  (scanCapture "!VOL(".toList isVolChar response).map parseFloatQ

/-- `parseRoomPerfectResponse` from `src/transport.ts` (split wire shape):
`'Global'` when the message contains `!RPGLOB`, else `Focus ${match[1]}`
for `/!RPFOC\((\d+)\)/`, else `null`. -/
def parseRoomPerfectResponse (response : List Char) : Option (List Char) :=
  if "!RPGLOB".toList <:+: response then some "Global".toList
  else
    match scanCapture "!RPFOC(".toList Char.isDigit response with
    | some cap => some ("Focus ".toList ++ cap)
    | none => none

/-- `parseRoomPerfectResponse` from the second-generation transport
(single-field wire shape): match `/!RP\((\d+)\)/`, `parseInt` the payload,
then map `0 ↦ Bypass`, `9 ↦ Global`, `1..8 ↦ Focus N`, anything else to
`null`. -/
def parseRoomPerfectResponseV2 (response : List Char) : Option (List Char) :=
  match scanCapture "!RP(".toList Char.isDigit response with
  | none => none
  | some cap =>
    let position := digitsToNat cap
    if position = 0 then some "Bypass".toList
    else if position = 9 then some "Global".toList
    else if 1 ≤ position ∧ position ≤ 8 then some ("Focus ".toList ++ natToChars position)
    else none

/-- JavaScript `Math.round`: nearest integer, ties toward `+∞`. -/
def jsRound (q : ℚ) : Int := ⌊q + 1 / 2⌋

/-- Division of a JavaScript number by 10 (`actualVolume / 10`). -/
def jsDivTen : JsNum → JsNum
  | JsNum.nan => JsNum.nan
  | JsNum.num q => JsNum.num (q / 10)

/-- The level command built by the `setVolume` handler of the
capability-aware tools module:
`const deviceLevel = Math.round(level * 10);` then
`` t.sendCommand(`!VOL(${deviceLevel})`) `` — the tenths-of-dB wire scale. -/
def encodeSetVolume (level : ℚ) : List Char :=
  "!VOL(".toList ++ intToChars (jsRound (level * 10)) ++ [')']

/-- The numeric level decode performed by the same handler on the device's
status reply: `const actualVolume = t.parseVolumeResponse(response);`
`const actualVolumeDb = actualVolume !== null ? actualVolume / 10 : null;`. -/
def decodeVolumeDb (response : List Char) : Option JsNum :=
  match parseVolumeResponse response with
  | none => none
  | some x => some (jsDivTen x)

/-! ## Theorems: splitting lemmas -/

theorem splitOnChar_ne_nil (sep : Char) (l : List Char) : splitOnChar sep l ≠ [] := by
  cases l with
  | nil => simp [splitOnChar]
  | cons c cs =>
    simp only [splitOnChar]
    split
    · simp
    · split
      · simp
      · simp

theorem lastSeg_cons_cons (a b : List Char) (l : List (List Char)) :
    lastSeg (a :: b :: l) = lastSeg (b :: l) := by
  simp [lastSeg, List.getLast?]

theorem splitOnChar_append (sep : Char) (a b : List Char) :
    splitOnChar sep (a ++ b) =
      (splitOnChar sep a).dropLast ++
        consHead (lastSeg (splitOnChar sep a)) (splitOnChar sep b) := by
  induction a with
  | nil =>
    simp only [List.nil_append, splitOnChar, List.dropLast_single, lastSeg]
    cases hb : splitOnChar sep b with
    | nil => exact absurd hb (splitOnChar_ne_nil sep b)
    | cons s ss => simp [consHead]
  | cons c cs ih =>
    by_cases hc : c = sep
    · cases hcs : splitOnChar sep cs with
      | nil => exact absurd hcs (splitOnChar_ne_nil sep cs)
      | cons s ss =>
        rw [hcs] at ih
        have hstep : splitOnChar sep ((c :: cs) ++ b) = [] :: splitOnChar sep (cs ++ b) := by
          simp [splitOnChar, hc]
        have hstep2 : splitOnChar sep (c :: cs) = [] :: s :: ss := by
          simp [splitOnChar, hc, hcs]
        rw [hstep, hstep2, ih, lastSeg_cons_cons]
        simp
    · cases hcs : splitOnChar sep cs with
      | nil => exact absurd hcs (splitOnChar_ne_nil sep cs)
      | cons s ss =>
        cases hcb : splitOnChar sep (cs ++ b) with
        | nil => exact absurd hcb (splitOnChar_ne_nil sep (cs ++ b))
        | cons t ts =>
          have hstep : splitOnChar sep (c :: (cs ++ b)) = (c :: t) :: ts := by
            simp [splitOnChar, hc, hcb]
          have hstep2 : splitOnChar sep (c :: cs) = (c :: s) :: ss := by
            simp [splitOnChar, hc, hcs]
          rw [List.cons_append, hstep, hstep2]
          rw [hcs] at ih
          cases ss with
          | nil =>
            -- split of cs is a single segment s: the glue happens at the head
            cases hb : splitOnChar sep b with
            | nil => exact absurd hb (splitOnChar_ne_nil sep b)
            | cons u us =>
              rw [hb] at ih
              simp only [List.dropLast_single, lastSeg, List.getLast?_singleton,
                Option.getD_some, List.nil_append, consHead] at ih
              rw [hcb] at ih
              cases ih
              simp [lastSeg, List.getLast?, consHead]
          | cons s2 ss2 =>
            rw [lastSeg_cons_cons] at ih
            rw [hcb] at ih
            have hd : (s :: s2 :: ss2).dropLast = s :: (s2 :: ss2).dropLast := by
              simp
            rw [hd, List.cons_append] at ih
            cases ih
            simp only [lastSeg_cons_cons]
            have hd2 : ((c :: s) :: s2 :: ss2).dropLast = (c :: s) :: (s2 :: ss2).dropLast := by
              simp
            rw [hd2, List.cons_append]

/-- The last segment of a split never contains the separator. -/
theorem sep_not_mem_lastSeg (sep : Char) (l : List Char) :
    sep ∉ lastSeg (splitOnChar sep l) := by
  induction l with
  | nil => simp [splitOnChar, lastSeg]
  | cons c cs ih =>
    by_cases hc : c = sep
    · cases hcs : splitOnChar sep cs with
      | nil => exact absurd hcs (splitOnChar_ne_nil sep cs)
      | cons s ss =>
        rw [hcs] at ih
        have hstep : splitOnChar sep (c :: cs) = [] :: s :: ss := by
          simp [splitOnChar, hc, hcs]
        rw [hstep, lastSeg_cons_cons]
        exact ih
    · cases hcs : splitOnChar sep cs with
      | nil => exact absurd hcs (splitOnChar_ne_nil sep cs)
      | cons s ss =>
        rw [hcs] at ih
        have hstep : splitOnChar sep (c :: cs) = (c :: s) :: ss := by
          simp [splitOnChar, hc, hcs]
        rw [hstep]
        cases ss with
        | nil =>
          simp only [lastSeg, List.getLast?_singleton, Option.getD_some] at ih ⊢
          simp only [List.mem_cons, not_or]
          exact ⟨fun h => hc h.symm, ih⟩
        | cons s2 ss2 => simpa [lastSeg_cons_cons] using ih

/-- A separator-free string splits into the single segment it is. -/
theorem splitOnChar_of_not_mem (sep : Char) (l : List Char) (h : sep ∉ l) :
    splitOnChar sep l = [l] := by
  induction l with
  | nil => simp [splitOnChar]
  | cons c cs ih =>
    simp only [List.mem_cons, not_or] at h
    have hrec := ih h.2
    have hcne : ¬c = sep := fun hh => h.1 hh.symm
    simp [splitOnChar, hcne, hrec]

theorem lastSeg_append_right (l₁ l₂ : List (List Char)) (h : l₂ ≠ []) :
    lastSeg (l₁ ++ l₂) = lastSeg l₂ := by
  induction l₁ with
  | nil => rfl
  | cons a as ih =>
    cases has : as ++ l₂ with
    | nil =>
      rcases List.append_eq_nil.mp has with ⟨-, h2⟩
      exact absurd h2 h
    | cons b bs =>
      rw [List.cons_append, has, lastSeg_cons_cons, ← has, ih]

theorem dropLast_append_right (l₁ l₂ : List (List Char)) (h : l₂ ≠ []) :
    (l₁ ++ l₂).dropLast = l₁ ++ l₂.dropLast := by
  induction l₁ with
  | nil => rfl
  | cons a as ih =>
    cases has : as ++ l₂ with
    | nil =>
      rcases List.append_eq_nil.mp has with ⟨-, h2⟩
      exact absurd h2 h
    | cons b bs =>
      rw [List.cons_append, has, List.dropLast_cons₂, ← has, ih, List.cons_append]

/-! ## Theorems: framer -/

theorem handleData_snd_no_CR (buf data : List Char) : CR ∉ (handleData buf data).2 :=
  sep_not_mem_lastSeg CR (buf ++ data)

theorem handleData_append (buf d₁ d₂ : List Char) :
    handleData buf (d₁ ++ d₂) =
      ((handleData buf d₁).1 ++ (handleData (handleData buf d₁).2 d₂).1,
       (handleData (handleData buf d₁).2 d₂).2) := by
  have hB : CR ∉ lastSeg (splitOnChar CR (buf ++ d₁)) := sep_not_mem_lastSeg CR (buf ++ d₁)
  have hsplitB : splitOnChar CR (lastSeg (splitOnChar CR (buf ++ d₁))) =
      [lastSeg (splitOnChar CR (buf ++ d₁))] :=
    splitOnChar_of_not_mem CR _ hB
  have hglue : consHead (lastSeg (splitOnChar CR (buf ++ d₁))) (splitOnChar CR d₂) =
      splitOnChar CR (lastSeg (splitOnChar CR (buf ++ d₁)) ++ d₂) := by
    rw [splitOnChar_append CR (lastSeg (splitOnChar CR (buf ++ d₁))) d₂, hsplitB]
    simp [lastSeg]
  have hkey : splitOnChar CR (buf ++ (d₁ ++ d₂)) =
      (splitOnChar CR (buf ++ d₁)).dropLast ++
        splitOnChar CR (lastSeg (splitOnChar CR (buf ++ d₁)) ++ d₂) := by
    rw [← List.append_assoc, splitOnChar_append CR (buf ++ d₁) d₂, hglue]
  have hne : splitOnChar CR (lastSeg (splitOnChar CR (buf ++ d₁)) ++ d₂) ≠ [] :=
    splitOnChar_ne_nil CR _
  simp only [handleData]
  rw [hkey, dropLast_append_right _ _ hne, lastSeg_append_right _ _ hne,
    List.filter_append]

theorem runChunks_flatten (chunks : List (List Char)) (buf : List Char) (h : chunks ≠ []) :
    runChunks buf chunks = handleData buf chunks.flatten := by
  induction chunks generalizing buf with
  | nil => exact absurd rfl h
  | cons d ds ih =>
    cases ds with
    | nil => simp [runChunks]
    | cons d2 ds2 =>
      have hne : d2 :: ds2 ≠ [] := by simp
      have step : runChunks buf (d :: d2 :: ds2) =
          ((handleData buf d).1 ++ (runChunks (handleData buf d).2 (d2 :: ds2)).1,
           (runChunks (handleData buf d).2 (d2 :: ds2)).2) := rfl
      rw [step, ih _ hne]
      have hfl : (d :: d2 :: ds2).flatten = d ++ (d2 :: ds2).flatten := rfl
      rw [hfl, handleData_append]

/-! ## Theorems: decimal digit strings -/

theorem digitChar_isDigit (d : Nat) (h : d < 10) : (digitChar d).isDigit = true := by
  interval_cases d <;> decide

theorem digitVal_digitChar (d : Nat) (h : d < 10) : digitVal (digitChar d) = d := by
  interval_cases d <;> decide

theorem digitChar_not_dash (d : Nat) (h : d < 10) :
    digitChar d ≠ '-' ∧ digitChar d ≠ '+' ∧ digitChar d ≠ '.' := by
  interval_cases d <;> exact ⟨by decide, by decide, by decide⟩

theorem natToCharsAux_congr (f₁ : Nat) :
    ∀ n f₂, n < f₁ → n < f₂ → natToCharsAux f₁ n = natToCharsAux f₂ n := by
  induction f₁ with
  | zero => intro n f₂ h₁ h₂; omega
  | succ g₁ ih =>
    intro n f₂ h₁ h₂
    cases f₂ with
    | zero => omega
    | succ g₂ =>
      simp only [natToCharsAux]
      by_cases hn : n < 10
      · simp [hn]
      · have hdiv₁ : n / 10 < g₁ := by omega
        have hdiv₂ : n / 10 < g₂ := by omega
        simp only [hn, if_false]
        rw [ih (n / 10) g₂ hdiv₁ hdiv₂]

/-- The characteristic unfolding of `natToChars`. -/
theorem natToChars_eq (n : Nat) :
    natToChars n =
      if n < 10 then [digitChar n] else natToChars (n / 10) ++ [digitChar (n % 10)] := by
  unfold natToChars
  simp only [natToCharsAux]
  by_cases hn : n < 10
  · simp [hn]
  · simp only [hn, if_false]
    congr 1
    exact natToCharsAux_congr n (n / 10) (n / 10 + 1) (by omega) (by omega)

theorem natToChars_ne_nil (n : Nat) : natToChars n ≠ [] := by
  rw [natToChars_eq]
  split
  · simp
  · simp

theorem natToChars_all_digits (n : Nat) : ∀ c ∈ natToChars n, c.isDigit = true := by
  induction n using Nat.strong_induction_on with
  | _ n ih =>
    rw [natToChars_eq]
    split
    · intro c hc
      rw [List.mem_singleton] at hc
      subst hc
      exact digitChar_isDigit n (by omega)
    · intro c hc
      rw [List.mem_append, List.mem_singleton] at hc
      rcases hc with hc | hc
      · exact ih (n / 10) (Nat.div_lt_self (by omega) (by omega)) c hc
      · subst hc
        exact digitChar_isDigit (n % 10) (Nat.mod_lt n (by omega))

theorem digitsToNat_append_digit (a : List Char) (c : Char) :
    digitsToNat (a ++ [c]) = 10 * digitsToNat a + digitVal c := by
  simp [digitsToNat, List.foldl_append]

theorem digitsToNat_natToChars (n : Nat) : digitsToNat (natToChars n) = n := by
  induction n using Nat.strong_induction_on with
  | _ n ih =>
    rw [natToChars_eq]
    split
    · rename_i h
      simp [digitsToNat, digitVal_digitChar n h]
    · rename_i h
      rw [digitsToNat_append_digit, ih (n / 10) (Nat.div_lt_self (by omega) (by omega)),
        digitVal_digitChar (n % 10) (Nat.mod_lt n (by omega))]
      omega

/-! ## Theorems: the regex matcher on well-formed payloads -/

theorem isPrefixOf_append_self (l r : List Char) : l.isPrefixOf (l ++ r) = true := by
  induction l with
  | nil => simp [List.isPrefixOf]
  | cons c cs ih => simp [List.isPrefixOf, ih]

theorem drop_len_append (l r : List Char) : (l ++ r).drop l.length = r := by
  induction l with
  | nil => rfl
  | cons c cs ih => simp [ih]

theorem takeWhile_append_stop (p : Char → Bool) (a r : List Char) (c : Char)
    (ha : ∀ x ∈ a, p x = true) (hc : p c = false) :
    (a ++ c :: r).takeWhile p = a := by
  induction a with
  | nil => simp [List.takeWhile_cons, hc]
  | cons x xs ih =>
    have hx := ha x (List.mem_cons_self x xs)
    simp only [List.cons_append, List.takeWhile_cons, hx, if_true]
    rw [ih (fun y hy => ha y (List.mem_cons_of_mem x hy))]

theorem dropWhile_append_stop (p : Char → Bool) (a r : List Char) (c : Char)
    (ha : ∀ x ∈ a, p x = true) (hc : p c = false) :
    (a ++ c :: r).dropWhile p = c :: r := by
  induction a with
  | nil => simp [List.dropWhile_cons, hc]
  | cons x xs ih =>
    have hx := ha x (List.mem_cons_self x xs)
    simp only [List.cons_append, List.dropWhile_cons, hx, if_true]
    exact ih (fun y hy => ha y (List.mem_cons_of_mem x hy))

theorem tryCapture_at_match (tag payload r : List Char) (p : Char → Bool)
    (hne : payload ≠ []) (hall : ∀ x ∈ payload, p x = true) (hstop : p ')' = false) :
    tryCapture tag p (tag ++ (payload ++ ')' :: r)) = some payload := by
  unfold tryCapture
  rw [isPrefixOf_append_self]
  simp only [if_true, drop_len_append,
    takeWhile_append_stop p payload r ')' hall hstop,
    dropWhile_append_stop p payload r ')' hall hstop,
    List.head?_cons]
  have hemp : payload.isEmpty = false := by
    cases payload with
    | nil => exact absurd rfl hne
    | cons a as => rfl
  simp [hemp]

/-! ## Claim theorems: framer -/

/-- C3: for every input string and every way of splitting it into
consecutive chunks, feeding the chunks one at a time to `handleData`
produces the same ordered sequence of messages passed to `processMessage`,
and the same final `responseBuffer` remainder, as feeding the whole string
in a single chunk. -/
theorem handleData_chunk_independent (chunks : List (List Char)) :
    runChunks [] chunks = handleData [] chunks.flatten := by
  cases chunks with
  | nil => rfl
  | cons d ds => exact runChunks_flatten (d :: ds) [] (by simp)

/-- C10: after every `handleData` call, the `responseBuffer` contains no
carriage-return delimiter — every delimiter-terminated prefix has been
consumed and only the trailing in-progress message remains. -/
theorem responseBuffer_no_delimiter (buf data : List Char) :
    ((handleData buf data).2).contains CR = false := by
  cases hc : ((handleData buf data).2).contains CR with
  | false => rfl
  | true =>
    exact absurd (List.elem_iff.mp hc) (handleData_snd_no_CR buf data)

/-- C9 counterexample: a segment consisting purely of whitespace is NOT
dropped by the framer — the chunk `" \r"` yields the whitespace-only
segment `" "`, which is passed to `processMessage`. -/
theorem handleData_whitespace_passed_cex :
    (' ').isWhitespace = true ∧ (handleData [] [' ', CR]).1 = [[' ']] := by
  decide

/-- C9 amended: the framer drops exactly the empty segments — every segment
passed to `processMessage` is non-empty — while a non-empty segment
consisting purely of whitespace IS passed to `processMessage`, where it is
ignored because it starts with neither `'#'` nor `'!'` and therefore
changes nothing. -/
theorem handleData_drops_only_empty (buf data m w : List Char) (st : TransportState)
    (hm : m ∈ (handleData buf data).1) (hw : w ≠ [])
    (hws : ∀ c ∈ w, c.isWhitespace = true) :
    m ≠ [] ∧ processMessage st w = st := by
  constructor
  · have := (List.mem_filter.mp hm).2
    intro hnil
    subst hnil
    simp at this
  · cases w with
    | nil => exact absurd rfl hw
    | cons c cs =>
      have hc := hws c (List.mem_cons_self c cs)
      have h1 : c ≠ '#' := by
        intro h
        rw [h] at hc
        exact absurd hc (by decide)
      have h2 : c ≠ '!' := by
        intro h
        rw [h] at hc
        exact absurd hc (by decide)
      simp [processMessage, startsWithChar, h1, h2]

/-- Witness for `handleData_drops_only_empty` at the chunk `" \r"` and the
whitespace message `" "`. -/
theorem handleData_drops_only_empty_witness :
    [' '] ≠ ([] : List Char) ∧ processMessage connectedState [' '] = connectedState :=
  handleData_drops_only_empty [] [' ', CR] [' '] [' '] connectedState
    (by decide) (by decide) (by decide)

/-! ## Claim theorems: correlator and connection manager -/

/-- C1: three commands submitted through `sendCommand` on a fresh connected
transport, before any reply arrives, are resolved by the next three status
messages in exactly submission order — the first status message fulfills
the first command's promise with its text, and so on — regardless of the
content of the status messages. -/
theorem sendCommand_fifo_resolution (c₁ c₂ c₃ m₁ m₂ m₃ : List Char)
    (h₁ : startsWithChar '!' m₁ = true)
    (h₂ : startsWithChar '!' m₂ = true)
    (h₃ : startsWithChar '!' m₃ = true) :
    (processMessage (processMessage (processMessage
        (sendCommand (sendCommand (sendCommand connectedState c₁ true).2 c₂ true).2
          c₃ true).2 m₁) m₂) m₃).settled =
      [(0, Outcome.fulfilled m₁), (1, Outcome.fulfilled m₂), (2, Outcome.fulfilled m₃)] := by
  cases m₁ with
  | nil => simp [startsWithChar] at h₁
  | cons x₁ t₁ =>
    cases m₂ with
    | nil => simp [startsWithChar] at h₂
    | cons x₂ t₂ =>
      cases m₃ with
      | nil => simp [startsWithChar] at h₃
      | cons x₃ t₃ =>
        have hx₁ : x₁ = '!' := by simpa [startsWithChar] using h₁
        have hx₂ : x₂ = '!' := by simpa [startsWithChar] using h₂
        have hx₃ : x₃ = '!' := by simpa [startsWithChar] using h₃
        subst hx₁; subst hx₂; subst hx₃
        rfl

/-- Witness for `sendCommand_fifo_resolution` with concrete commands and
status messages. -/
theorem sendCommand_fifo_resolution_witness :
    (processMessage (processMessage (processMessage
        (sendCommand (sendCommand (sendCommand connectedState "!PWR".toList true).2
          "!VOL?".toList true).2 "!SRC?".toList true).2
        "!PWR(ON)".toList) "!VOL(-150)".toList) "!SRC(2)".toList).settled =
      [(0, Outcome.fulfilled "!PWR(ON)".toList),
       (1, Outcome.fulfilled "!VOL(-150)".toList),
       (2, Outcome.fulfilled "!SRC(2)".toList)] :=
  sendCommand_fifo_resolution _ _ _ _ _ _ (by decide) (by decide) (by decide)

/-- C2: evaluation of the code at the failing input. Two commands (ids 0
and 1) are submitted; command 0's timeout fires. The timeout callback's
`findIndex(c => c.resolve === resolve)` compares the stored wrapper closure
against the executor's own `resolve`, which never matches, so the expired
entry is NOT removed from the queue (the queue still holds both entries),
even though the promise is rejected with the timeout error. A status
message arriving afterwards then shifts the expired entry — a no-op on the
already-settled promise 0 — instead of resolving command 1, so promise 1
settles with nothing. This contradicts the claim, which requires the
expired entry to be removed and the late status to resolve the
then-current queue head. -/
theorem timeout_leaves_entry_queued :
    (timeoutFires (sendCommand (sendCommand connectedState "!VOL(-150)".toList true).2
        "!SRC(2)".toList true).2 0).commandQueue =
      [⟨"!VOL(-150)".toList, 0⟩, ⟨"!SRC(2)".toList, 1⟩] ∧
    (timeoutFires (sendCommand (sendCommand connectedState "!VOL(-150)".toList true).2
        "!SRC(2)".toList true).2 0).settled = [(0, Outcome.timedOut)] ∧
    (processMessage (timeoutFires (sendCommand (sendCommand connectedState
        "!VOL(-150)".toList true).2 "!SRC(2)".toList true).2 0) "!X".toList).settled =
      [(0, Outcome.timedOut)] ∧
    (processMessage (timeoutFires (sendCommand (sendCommand connectedState
        "!VOL(-150)".toList true).2 "!SRC(2)".toList true).2 0) "!X".toList).commandQueue =
      [⟨"!SRC(2)".toList, 1⟩] := by
  decide

/-- C4: `sendCommand` with no socket, or with a destroyed socket, fails
synchronously with the not-connected error and leaves the whole transport
state — in particular the pending queue — unchanged; nothing is enqueued. -/
theorem sendCommand_not_connected (st : TransportState) (command : List Char)
    (writeOk : Bool) (h : st.socket = none ∨ st.socket = some true) :
    sendCommand st command writeOk = (Except.error SendError.notConnected, st) := by
  simp [sendCommand, h]

/-- Witness for `sendCommand_not_connected` on a transport whose socket is
`null`. -/
theorem sendCommand_not_connected_witness :
    sendCommand unconnectedState "!ON".toList true =
      (Except.error SendError.notConnected, unconnectedState) :=
  sendCommand_not_connected unconnectedState "!ON".toList true (Or.inl rfl)

/-- C5: evaluation of the code at the failing input. `disconnect()` on a
connected transport clears the reconnect timer and destroys the socket, but
destroying the socket makes Node deliver the `'close'` event to the handler
installed by `connect()`, whose unconditional `scheduleReconnect()` then
arms a fresh reconnect timer — so a reconnect attempt IS scheduled after an
explicit `disconnect()` and before any new `connect()` call, contradicting
the claim. -/
theorem disconnect_close_schedules_reconnect :
    (disconnect connectedState).reconnectTimer = false ∧
    (disconnect connectedState).socket = none ∧
    (disconnect connectedState).closePending = true ∧
    (socketCloseEvent (disconnect connectedState)).reconnectTimer = true := by
  decide

/-! ## Theorems: `parseFloat` and the tagged-capture scan on well-formed input -/

theorem takeWhile_all (p : Char → Bool) (l : List Char) (h : ∀ x ∈ l, p x = true) :
    l.takeWhile p = l :=
  List.takeWhile_eq_self_iff.mpr h

theorem dropWhile_all (p : Char → Bool) (l : List Char) (h : ∀ x ∈ l, p x = true) :
    l.dropWhile p = [] :=
  List.dropWhile_eq_nil_iff.mpr h

theorem parseFloatMag_digits (ds : List Char) (hne : ds ≠ [])
    (hd : ∀ c ∈ ds, c.isDigit = true) :
    parseFloatMag ds = JsNum.num (digitsToNat ds) := by
  have h3 := takeWhile_all Char.isDigit ds hd
  have h4 := dropWhile_all Char.isDigit ds hd
  have hemp : ds.isEmpty = false := by
    cases ds with
    | nil => exact absurd rfl hne
    | cons a as => rfl
  simp [parseFloatMag, h3, h4, hemp, startsWithChar]

theorem parseFloatQ_digits (ds : List Char) (hne : ds ≠ [])
    (hd : ∀ c ∈ ds, c.isDigit = true) :
    parseFloatQ ds = JsNum.num (digitsToNat ds) := by
  cases ds with
  | nil => exact absurd rfl hne
  | cons c cs =>
    have hc : c.isDigit = true := hd c (List.mem_cons_self c cs)
    have hdash : ¬c = '-' := fun hh => by rw [hh] at hc; exact absurd hc (by decide)
    have hplus : ¬c = '+' := fun hh => by rw [hh] at hc; exact absurd hc (by decide)
    have h1 : startsWithChar '-' (c :: cs) = false := by simp [startsWithChar, hdash]
    have h2 : startsWithChar '+' (c :: cs) = false := by simp [startsWithChar, hplus]
    rw [parseFloatQ, h1, h2]
    simp only [Bool.false_eq_true, if_false]
    exact parseFloatMag_digits (c :: cs) hne hd

theorem parseFloatQ_neg_digits (ds : List Char) (hne : ds ≠ [])
    (hd : ∀ c ∈ ds, c.isDigit = true) :
    parseFloatQ ('-' :: ds) = JsNum.num (-(digitsToNat ds : ℚ)) := by
  have h1 : startsWithChar '-' ('-' :: ds) = true := by simp [startsWithChar]
  rw [parseFloatQ, h1]
  simp only [if_true, List.drop_succ_cons, List.drop_zero]
  rw [parseFloatMag_digits ds hne hd]
  rfl

theorem intToChars_ne_nil (d : ℤ) : intToChars d ≠ [] := by
  unfold intToChars
  split
  · simp
  · exact natToChars_ne_nil _

theorem intToChars_all_volChar (d : ℤ) : ∀ x ∈ intToChars d, isVolChar x = true := by
  unfold intToChars
  split
  · intro x hx
    rcases List.mem_cons.mp hx with hx | hx
    · subst hx; decide
    · have := natToChars_all_digits d.natAbs x hx
      simp [isVolChar, this]
  · intro x hx
    have := natToChars_all_digits d.natAbs x hx
    simp [isVolChar, this]

theorem parseFloatQ_intToChars (d : ℤ) :
    parseFloatQ (intToChars d) = JsNum.num (d : ℚ) := by
  by_cases hd : d < 0
  · have hrepr : intToChars d = '-' :: natToChars d.natAbs := by simp [intToChars, hd]
    rw [hrepr, parseFloatQ_neg_digits _ (natToChars_ne_nil _) (natToChars_all_digits _),
      digitsToNat_natToChars]
    congr 1
    have habs : (d.natAbs : ℚ) = -(d : ℚ) := by
      rw [Int.cast_natAbs]
      push_cast
      rw [abs_of_neg (show ((d : ℚ)) < 0 by exact_mod_cast hd)]
    rw [habs]
    ring
  · have hrepr : intToChars d = natToChars d.natAbs := by simp [intToChars, hd]
    rw [hrepr, parseFloatQ_digits _ (natToChars_ne_nil _) (natToChars_all_digits _),
      digitsToNat_natToChars]
    congr 1
    rw [Int.cast_natAbs]
    push_cast
    rw [abs_of_nonneg (show (0 : ℚ) ≤ (d : ℚ) by exact_mod_cast not_lt.mp hd)]

theorem scanCapture_cons_tag (c : Char) (ct payload r : List Char) (p : Char → Bool)
    (hne : payload ≠ []) (hall : ∀ x ∈ payload, p x = true) (hstop : p ')' = false) :
    scanCapture (c :: ct) p ((c :: ct) ++ (payload ++ ')' :: r)) = some payload := by
  have htry := tryCapture_at_match (c :: ct) payload r p hne hall hstop
  rw [List.cons_append] at htry ⊢
  simp [scanCapture, htry]

theorem parseVolumeResponse_payload (payload : List Char) (hne : payload ≠ [])
    (hall : ∀ x ∈ payload, isVolChar x = true) :
    parseVolumeResponse ("!VOL(".toList ++ payload ++ [')']) =
      some (parseFloatQ payload) := by
  unfold parseVolumeResponse
  have htag : "!VOL(".toList = '!' :: "VOL(".toList := by decide
  rw [List.append_assoc, htag,
    scanCapture_cons_tag '!' "VOL(".toList payload [] isVolChar hne hall (by decide)]
  rfl

/-! ## Claim theorems: response decoders and the level round-trip -/

/-- C6: round-trip of the level encoding in the capability-aware tools
module. For every level value `v` expressible in tenths, the handler's
encoding `Math.round(v * 10)` into `!VOL(...)` followed by the handler's
numeric decode of the device's echoed status for that exact command
(`parseVolumeResponse`, then division by 10) yields `v` again. -/
theorem setVolume_roundtrip (v : ℚ) (h : (v * 10).den = 1) :
    decodeVolumeDb (encodeSetVolume v) = some (JsNum.num v) := by
  have hv10 : ((v * 10).num : ℚ) = v * 10 := by
    conv_rhs => rw [← Rat.num_div_den (v * 10)]
    rw [h]
    simp
  have hround : jsRound (v * 10) = (v * 10).num := by
    rw [jsRound, ← hv10, Int.floor_int_add]
    norm_num
  unfold decodeVolumeDb encodeSetVolume
  rw [hround,
    parseVolumeResponse_payload (intToChars (v * 10).num) (intToChars_ne_nil _)
      (intToChars_all_volChar _),
    parseFloatQ_intToChars]
  simp only [jsDivTen]
  rw [hv10, mul_div_cancel_right₀ v (by norm_num : (10 : ℚ) ≠ 0)]

/-- Witness for `setVolume_roundtrip` at level `-15.0`: the wire payload is
`-150` and the decode yields `-15` again. -/
theorem setVolume_roundtrip_witness :
    ((-15 : ℚ) * 10).den = 1 ∧
    encodeSetVolume (-15) = "!VOL(-150)".toList ∧
    decodeVolumeDb (encodeSetVolume (-15)) = some (JsNum.num (-15)) := by
  have hden : ((-15 : ℚ) * 10).den = 1 := by
    have hm : ((-15 : ℚ) * 10) = ((-150 : ℤ) : ℚ) := by norm_num
    rw [hm, Rat.den_intCast]
  have hr : jsRound ((-15 : ℚ) * 10) = -150 := by
    have hm : ((-15 : ℚ) * 10) + 1 / 2 = ((-150 : ℤ) : ℚ) + 1 / 2 := by norm_num
    rw [jsRound, hm, Int.floor_int_add]
    norm_num
  have henc : encodeSetVolume (-15) = "!VOL(-150)".toList := by
    unfold encodeSetVolume
    rw [hr]
    decide
  exact ⟨hden, henc, setVolume_roundtrip (-15) hden⟩

/-- C7: the single-field labeled-position decoder maps payload 0 to
`Bypass`, payload 9 to `Global`, payloads 1..8 to `Focus N`, and every
other payload to no-match; in particular `!RP(9)` yields `Global`,
`!RP(0)` yields `Bypass`, `!RP(4)` yields `Focus 4`, and `!RP(20)` yields
no-match. -/
theorem parseRoomPerfect_labeled_positions :
    (∀ n : Nat,
      parseRoomPerfectResponseV2 ("!RP(".toList ++ (natToChars n ++ [')'])) =
        (if n = 0 then some "Bypass".toList
         else if n = 9 then some "Global".toList
         else if n ≤ 8 then some ("Focus ".toList ++ natToChars n)
         else none)) ∧
    parseRoomPerfectResponseV2 "!RP(9)".toList = some "Global".toList ∧
    parseRoomPerfectResponseV2 "!RP(0)".toList = some "Bypass".toList ∧
    parseRoomPerfectResponseV2 "!RP(4)".toList = some "Focus 4".toList ∧
    parseRoomPerfectResponseV2 "!RP(20)".toList = none := by
  refine ⟨?_, by decide, by decide, by decide, by decide⟩
  intro n
  unfold parseRoomPerfectResponseV2
  have htag : "!RP(".toList = '!' :: "RP(".toList := by decide
  rw [htag,
    scanCapture_cons_tag '!' "RP(".toList (natToChars n) [] Char.isDigit
      (natToChars_ne_nil n) (natToChars_all_digits n) (by decide)]
  simp only [digitsToNat_natToChars]
  split_ifs <;> first | rfl | omega

/-- C8 counterexample: no single decoder supports both historical wire
shapes. The `src/transport.ts` decoder yields no-match on the single-field
form `!RP(9)` (which the claim says decodes to `Global`), and the
second-generation decoder yields no-match on the split form's sentinel
`!RPGLOB`. -/
theorem parseRoomPerfect_single_shape_cex :
    parseRoomPerfectResponse "!RP(9)".toList = none ∧
    parseRoomPerfectResponseV2 "!RPGLOB".toList = none := by
  decide

/-- C8 amended: the two historical wire shapes are supported by two
different generations of the decoder, each handling exactly one shape and
returning no-match on the other — there is no attempt chain trying one
shape's pattern and then the other within either decoder. -/
theorem parseRoomPerfect_one_shape_each :
    parseRoomPerfectResponse "!RPGLOB".toList = some "Global".toList ∧
    parseRoomPerfectResponse "!RPFOC(4)".toList = some "Focus 4".toList ∧
    parseRoomPerfectResponse "!RP(9)".toList = none ∧
    parseRoomPerfectResponse "!RP(0)".toList = none ∧
    parseRoomPerfectResponseV2 "!RP(9)".toList = some "Global".toList ∧
    parseRoomPerfectResponseV2 "!RP(4)".toList = some "Focus 4".toList ∧
    parseRoomPerfectResponseV2 "!RPGLOB".toList = none ∧
    parseRoomPerfectResponseV2 "!RPFOC(4)".toList = none := by
  decide

end Lyngdorf
